import Mathlib

/-!
# Shallow embedding of the conch-parser AST builder

This file embeds `src/syntax/ast/builder.rs`: the AST node vocabulary it
constructs, the default (reference) `CommandBuilder` production methods, the
`Builder`-trait adapter that forwards to them, and proves the specification's
claims about them.
-/

namespace Conch

/-- Modelled from the spec: `syntax::ast::Word` is not among the sources; the
spec describes it as an opaque, not-yet-expanded token sequence carried through
unchanged, so it is represented as an uninterpreted wrapper around a string. -/
structure Word where
  tok : String
deriving DecidableEq

/-- Modelled from the spec: `syntax::ast::Redirect` is not among the sources;
the spec describes it as opaque to this core (a file-descriptor operation
attached to a command), so it is represented as an uninterpreted wrapper. -/
structure Redirect where
  op : Nat
deriving DecidableEq

/-- Modelled from the spec: `syntax::ast::Newline` is not among the sources;
the spec describes it as a trivia marker carrying an optional source comment. -/
structure Newline where
  comment : Option String
deriving DecidableEq

/-- `SimpleCommand`: optional command-name word, environment-variable
assignments, argument words and redirects, exactly as filled in by
`CommandBuilder::simple_command`. -/
structure SimpleCommand where
  cmd : Option Word
  vars : List (String × Option Word)
  args : List Word
  io : List Redirect
deriving DecidableEq

mutual

/-- The `ast::Command` node shapes, as constructed by `builder.rs`
(`Box` indirections are dropped in the embedding). -/
inductive Command where
  | Simple : SimpleCommand → Command
  | Pipe : Bool → List Command → Command
  | And : Command → Command → Command
  | Or : Command → Command → Command
  | Job : Command → Command
  | Compound : CompoundCommand → List Redirect → Command
  | Function : String → Command → Command

/-- The `ast::CompoundCommand` node shapes, as constructed by `builder.rs`. -/
inductive CompoundCommand where
  | Brace : List Command → CompoundCommand
  | Subshell : List Command → CompoundCommand
  | While : List Command → List Command → CompoundCommand
  | Until : List Command → List Command → CompoundCommand
  | If : List (List Command × List Command) → Option (List Command) → CompoundCommand
  | For : String → Option (List Word) → List Command → CompoundCommand
  | Case : Word → List (List Word × List Command) → CompoundCommand

end

/-- `SeparatorKind` from `builder.rs`: how a complete command was delimited. -/
inductive SeparatorKind where
  | Semi : SeparatorKind
  | Amp : SeparatorKind
  | Newline : Newline → SeparatorKind
  | Other : SeparatorKind
deriving DecidableEq

/-- `AndOrKind` from `builder.rs`. -/
inductive AndOrKind where
  | And : AndOrKind
  | Or : AndOrKind
deriving DecidableEq

/-- `LoopKind` from `builder.rs`. -/
inductive LoopKind where
  | While : LoopKind
  | Until : LoopKind
deriving DecidableEq

/-- `DummyError` from `builder.rs`: the zero-information error marker of the
reference builder. -/
inductive DummyError where
  | mk : DummyError
deriving DecidableEq

/-- The `Error::description` implementation of `DummyError`. -/
def DummyError.description : DummyError → String :=
  fun _ => "dummy error"

namespace CommandBuilder

/-- Default body of `CommandBuilder::complete_command`: wrap in `Job` when the
separator is an ampersand, otherwise pass the command through. -/
def complete_command (_pre_cmd_comments : List Newline) (cmd : Command)
    (separator : SeparatorKind) (_pos_cmd_comments : List Newline) :
    Except DummyError Command :=
  match separator with
  | SeparatorKind.Semi => Except.ok cmd
  | SeparatorKind.Other => Except.ok cmd
  | SeparatorKind.Newline _ => Except.ok cmd
  | SeparatorKind.Amp => Except.ok (Command.Job cmd)

/-- Default body of `CommandBuilder::and_or`. -/
def and_or (first : Command) (kind : AndOrKind)
    (_post_separator_comments : List Newline) (second : Command) :
    Except DummyError Command :=
  match kind with
  | AndOrKind.And => Except.ok (Command.And first second)
  | AndOrKind.Or => Except.ok (Command.Or first second)

/-- Default body of `CommandBuilder::pipeline`.  The source pops the single
element off the stage vector with `cmds.pop().unwrap()`; `unwrap` panics on an
empty vector (the `debug_assert` is compiled out in release builds), so the
result type is wrapped in `Option`, with `none` standing for the panic.
`shrink_to_fit` only trims capacity and has no semantic counterpart. -/
def pipeline (bang : Bool) (cmds : List (List Newline × Command)) :
    Option (Except DummyError Command) :=
  let cs := cmds.map Prod.snd
  if bang = true ∨ 1 < cs.length then
    some (Except.ok (Command.Pipe bang cs))
  else
    cs.getLast?.map Except.ok

/-- Default body of `CommandBuilder::simple_command`. -/
def simple_command (env_vars : List (String × Option Word)) (cmd : Option Word)
    (args : List Word) (redirects : List Redirect) : Except DummyError Command :=
  Except.ok (Command.Simple ⟨cmd, env_vars, args, redirects⟩)

/-- Default body of `CommandBuilder::brace_group`. -/
def brace_group (cmds : List Command) (redirects : List Redirect) :
    Except DummyError Command :=
  Except.ok (Command.Compound (CompoundCommand.Brace cmds) redirects)

/-- Default body of `CommandBuilder::subshell`. -/
def subshell (cmds : List Command) (redirects : List Redirect) :
    Except DummyError Command :=
  Except.ok (Command.Compound (CompoundCommand.Subshell cmds) redirects)

/-- Default body of `CommandBuilder::loop_command`. -/
def loop_command (kind : LoopKind) (guard : List Command) (body : List Command)
    (redirects : List Redirect) : Except DummyError Command :=
  let loop_cmd :=
    match kind with
    | LoopKind.While => CompoundCommand.While guard body
    | LoopKind.Until => CompoundCommand.Until guard body
  Except.ok (Command.Compound loop_cmd redirects)

/-- Default body of `CommandBuilder::if_command`. -/
def if_command (branches : List (List Command × List Command))
    (else_part : Option (List Command)) (redirects : List Redirect) :
    Except DummyError Command :=
  Except.ok (Command.Compound (CompoundCommand.If branches else_part) redirects)

/-- Default body of `CommandBuilder::for_command`. -/
def for_command (var : String) (_post_var_comments : List Newline)
    (in_words : Option (List Word)) (_post_word_comments : Option (List Newline))
    (body : List Command) (redirects : List Redirect) : Except DummyError Command :=
  Except.ok (Command.Compound (CompoundCommand.For var in_words body) redirects)

/-- Default body of `CommandBuilder::case_command`: each branch keeps only its
pattern list and body, dropping the surrounding trivia. -/
def case_command (word : Word) (_post_word_comments : List Newline)
    (branches : List ((List Newline × List Word × List Newline) × List Command))
    (_post_branch_comments : List Newline) (redirects : List Redirect) :
    Except DummyError Command :=
  let branches := branches.map (fun br => (br.1.2.1, br.2))
  Except.ok (Command.Compound (CompoundCommand.Case word branches) redirects)

/-- Default body of `CommandBuilder::function_declaration`. -/
def function_declaration (names : String) (body : Command) :
    Except DummyError Command :=
  Except.ok (Command.Function names body)

/-- Default body of `CommandBuilder::comments`: always succeeds, ignoring the
input. -/
def comments (_comments : List Newline) : Except DummyError Unit :=
  Except.ok ()

end CommandBuilder

/-- A `CommandBuilder` implementation: one function per trait method, with the
`&mut self` receiver embedded as explicit state threading over a private state
type `σ` and an implementation-chosen error type `E`.  These signatures are the
trait's (`Output` fixed to `Command`). -/
structure CommandBuilderT (σ E : Type) where
  complete_command : σ → List Newline → Command → SeparatorKind → List Newline →
    σ × Except E Command
  and_or : σ → Command → AndOrKind → List Newline → Command → σ × Except E Command
  pipeline : σ → Bool → List (List Newline × Command) → σ × Except E Command
  simple_command : σ → List (String × Option Word) → Option Word → List Word →
    List Redirect → σ × Except E Command
  brace_group : σ → List Command → List Redirect → σ × Except E Command
  subshell : σ → List Command → List Redirect → σ × Except E Command
  loop_command : σ → LoopKind → List Command → List Command → List Redirect →
    σ × Except E Command
  if_command : σ → List (List Command × List Command) → Option (List Command) →
    List Redirect → σ × Except E Command
  for_command : σ → String → List Newline → Option (List Word) →
    Option (List Newline) → List Command → List Redirect → σ × Except E Command
  case_command : σ → Word → List Newline →
    List ((List Newline × List Word × List Newline) × List Command) →
    List Newline → List Redirect → σ × Except E Command
  function_declaration : σ → String → Command → σ × Except E Command
  comments : σ → List Newline → σ × Except E Unit

/-- A `Builder` implementation with output type `O`, error type `E` and state
type `σ`: the general trait's method signatures. -/
structure BuilderT (σ O E : Type) where
  complete_command : σ → List Newline → O → SeparatorKind → List Newline →
    σ × Except E O
  and_or : σ → O → AndOrKind → List Newline → O → σ × Except E O
  pipeline : σ → Bool → List (List Newline × O) → σ × Except E O
  simple_command : σ → List (String × Option Word) → Option Word → List Word →
    List Redirect → σ × Except E O
  brace_group : σ → List O → List Redirect → σ × Except E O
  subshell : σ → List O → List Redirect → σ × Except E O
  loop_command : σ → LoopKind → List O → List O → List Redirect → σ × Except E O
  if_command : σ → List (List O × List O) → Option (List O) → List Redirect →
    σ × Except E O
  for_command : σ → String → List Newline → Option (List Word) →
    Option (List Newline) → List O → List Redirect → σ × Except E O
  case_command : σ → Word → List Newline →
    List ((List Newline × List Word × List Newline) × List O) → List Newline →
    List Redirect → σ × Except E O
  function_declaration : σ → String → O → σ × Except E O
  comments : σ → List Newline → σ × Except E Unit

/-- The blanket adapter `impl<T: CommandBuilder> Builder for T` from
`builder.rs`: every `Builder` method forwards to the homonymous
`CommandBuilder` method, with `Output = Command`. -/
def toBuilder {σ E : Type} (cb : CommandBuilderT σ E) : BuilderT σ Command E where
  complete_command := cb.complete_command
  and_or := cb.and_or
  pipeline := cb.pipeline
  simple_command := cb.simple_command
  brace_group := cb.brace_group
  subshell := cb.subshell
  loop_command := cb.loop_command
  if_command := cb.if_command
  for_command := cb.for_command
  case_command := cb.case_command
  function_declaration := cb.function_declaration
  comments := cb.comments

/-- The commands reachable by composing reference-builder calls: a command is
reachable exactly when it is the successful output of one of the default
`CommandBuilder` production methods whose command-valued inputs are themselves
reachable (trivia, words and redirects are arbitrary). -/
inductive Reachable : Command → Prop where
  | complete_command (pre : List Newline) (cmd : Command) (sep : SeparatorKind)
      (post : List Newline) (c : Command) :
      Reachable cmd →
      CommandBuilder.complete_command pre cmd sep post = Except.ok c →
      Reachable c
  | and_or (first : Command) (kind : AndOrKind) (post : List Newline)
      (second : Command) (c : Command) :
      Reachable first → Reachable second →
      CommandBuilder.and_or first kind post second = Except.ok c →
      Reachable c
  | pipeline (bang : Bool) (cmds : List (List Newline × Command)) (c : Command) :
      (∀ p, p ∈ cmds → Reachable p.2) →
      CommandBuilder.pipeline bang cmds = some (Except.ok c) →
      Reachable c
  | simple_command (env_vars : List (String × Option Word)) (cmd : Option Word)
      (args : List Word) (redirects : List Redirect) (c : Command) :
      CommandBuilder.simple_command env_vars cmd args redirects = Except.ok c →
      Reachable c
  | brace_group (cmds : List Command) (redirects : List Redirect) (c : Command) :
      (∀ x, x ∈ cmds → Reachable x) →
      CommandBuilder.brace_group cmds redirects = Except.ok c →
      Reachable c
  | subshell (cmds : List Command) (redirects : List Redirect) (c : Command) :
      (∀ x, x ∈ cmds → Reachable x) →
      CommandBuilder.subshell cmds redirects = Except.ok c →
      Reachable c
  | loop_command (kind : LoopKind) (guard : List Command) (body : List Command)
      (redirects : List Redirect) (c : Command) :
      (∀ x, x ∈ guard → Reachable x) →
      (∀ x, x ∈ body → Reachable x) →
      CommandBuilder.loop_command kind guard body redirects = Except.ok c →
      Reachable c
  | if_command (branches : List (List Command × List Command))
      (else_part : Option (List Command)) (redirects : List Redirect)
      (c : Command) :
      (∀ br, br ∈ branches → ∀ x, x ∈ br.1 → Reachable x) →
      (∀ br, br ∈ branches → ∀ x, x ∈ br.2 → Reachable x) →
      (∀ l, else_part = some l → ∀ x, x ∈ l → Reachable x) →
      CommandBuilder.if_command branches else_part redirects = Except.ok c →
      Reachable c
  | for_command (var : String) (pv : List Newline) (in_words : Option (List Word))
      (pw : Option (List Newline)) (body : List Command)
      (redirects : List Redirect) (c : Command) :
      (∀ x, x ∈ body → Reachable x) →
      CommandBuilder.for_command var pv in_words pw body redirects = Except.ok c →
      Reachable c
  | case_command (word : Word) (pw : List Newline)
      (branches : List ((List Newline × List Word × List Newline) × List Command))
      (pb : List Newline) (redirects : List Redirect) (c : Command) :
      (∀ br, br ∈ branches → ∀ x, x ∈ br.2 → Reachable x) →
      CommandBuilder.case_command word pw branches pb redirects = Except.ok c →
      Reachable c
  | function_declaration (names : String) (body : Command) (c : Command) :
      Reachable body →
      CommandBuilder.function_declaration names body = Except.ok c →
      Reachable c

/-- A command tree contains, somewhere, a `Pipe` node whose negation flag is
`false` and which has exactly one stage. -/
inductive HasBadPipe : Command → Prop where
  | here (c : Command) : HasBadPipe (Command.Pipe false [c])
  | pipe_stage {x : Command} (bang : Bool) (l : List Command) :
      x ∈ l → HasBadPipe x → HasBadPipe (Command.Pipe bang l)
  | and_left {x : Command} (b : Command) :
      HasBadPipe x → HasBadPipe (Command.And x b)
  | and_right {x : Command} (a : Command) :
      HasBadPipe x → HasBadPipe (Command.And a x)
  | or_left {x : Command} (b : Command) :
      HasBadPipe x → HasBadPipe (Command.Or x b)
  | or_right {x : Command} (a : Command) :
      HasBadPipe x → HasBadPipe (Command.Or a x)
  | job {x : Command} : HasBadPipe x → HasBadPipe (Command.Job x)
  | func {x : Command} (names : String) :
      HasBadPipe x → HasBadPipe (Command.Function names x)
  | brace {x : Command} (l : List Command) (rds : List Redirect) :
      x ∈ l → HasBadPipe x →
      HasBadPipe (Command.Compound (CompoundCommand.Brace l) rds)
  | subshell {x : Command} (l : List Command) (rds : List Redirect) :
      x ∈ l → HasBadPipe x →
      HasBadPipe (Command.Compound (CompoundCommand.Subshell l) rds)
  | while_guard {x : Command} (g b : List Command) (rds : List Redirect) :
      x ∈ g → HasBadPipe x →
      HasBadPipe (Command.Compound (CompoundCommand.While g b) rds)
  | while_body {x : Command} (g b : List Command) (rds : List Redirect) :
      x ∈ b → HasBadPipe x →
      HasBadPipe (Command.Compound (CompoundCommand.While g b) rds)
  | until_guard {x : Command} (g b : List Command) (rds : List Redirect) :
      x ∈ g → HasBadPipe x →
      HasBadPipe (Command.Compound (CompoundCommand.Until g b) rds)
  | until_body {x : Command} (g b : List Command) (rds : List Redirect) :
      x ∈ b → HasBadPipe x →
      HasBadPipe (Command.Compound (CompoundCommand.Until g b) rds)
  | if_guard {x : Command} (brs : List (List Command × List Command))
      (els : Option (List Command)) (rds : List Redirect)
      (br : List Command × List Command) :
      br ∈ brs → x ∈ br.1 → HasBadPipe x →
      HasBadPipe (Command.Compound (CompoundCommand.If brs els) rds)
  | if_body {x : Command} (brs : List (List Command × List Command))
      (els : Option (List Command)) (rds : List Redirect)
      (br : List Command × List Command) :
      br ∈ brs → x ∈ br.2 → HasBadPipe x →
      HasBadPipe (Command.Compound (CompoundCommand.If brs els) rds)
  | if_else {x : Command} (brs : List (List Command × List Command))
      (l : List Command) (rds : List Redirect) :
      x ∈ l → HasBadPipe x →
      HasBadPipe (Command.Compound (CompoundCommand.If brs (some l)) rds)
  | for_body {x : Command} (v : String) (ws : Option (List Word))
      (body : List Command) (rds : List Redirect) :
      x ∈ body → HasBadPipe x →
      HasBadPipe (Command.Compound (CompoundCommand.For v ws body) rds)
  | case_body {x : Command} (w : Word) (brs : List (List Word × List Command))
      (rds : List Redirect) (br : List Word × List Command) :
      br ∈ brs → x ∈ br.2 → HasBadPipe x →
      HasBadPipe (Command.Compound (CompoundCommand.Case w brs) rds)

/-- A concrete command (the empty simple command) used to instantiate
universally quantified theorems at a specific input. -/
def sampleCmd : Command := Command.Simple ⟨none, [], [], []⟩

lemma pipeline_of_wrap (bang : Bool) (cmds : List (List Newline × Command))
    (h : bang = true ∨ 1 < cmds.length) :
    CommandBuilder.pipeline bang cmds =
      some (Except.ok (Command.Pipe bang (cmds.map Prod.snd))) := by
  unfold CommandBuilder.pipeline
  rw [if_pos (by simpa using h)]

lemma pipeline_singleton (t : List Newline) (c : Command) :
    CommandBuilder.pipeline false [(t, c)] = some (Except.ok c) := rfl

lemma pipeline_ok_of (bang : Bool) (cmds : List (List Newline × Command))
    (h : bang = true ∨ cmds ≠ []) :
    ∃ r, CommandBuilder.pipeline bang cmds = some (Except.ok r) := by
  rcases h with h | h
  · exact ⟨_, pipeline_of_wrap bang cmds (Or.inl h)⟩
  · cases cmds with
    | nil => exact absurd rfl h
    | cons p t =>
      cases t with
      | nil =>
        cases hb : bang with
        | false => obtain ⟨tr, c⟩ := p; exact ⟨c, pipeline_singleton tr c⟩
        | true => exact ⟨_, pipeline_of_wrap true [p] (Or.inl rfl)⟩
      | cons q r =>
        exact ⟨_, pipeline_of_wrap bang (p :: q :: r) (Or.inr (by simp))⟩

/-- C2: for every non-empty stage list and bang flag, `pipeline` returns a
`Pipe` node with the given bang flag and the stages' commands in order
(trivia dropped) when bang is set or there is more than one stage, and
otherwise returns the single stage's command itself, unwrapped. -/
theorem pipeline_collapse_spec (bang : Bool)
    (cmds : List (List Newline × Command)) (h : cmds ≠ []) :
    ((bang = true ∨ 1 < cmds.length) →
      CommandBuilder.pipeline bang cmds =
        some (Except.ok (Command.Pipe bang (cmds.map Prod.snd)))) ∧
    (bang = false → ¬ 1 < cmds.length →
      ∃ p, cmds = [p] ∧
        CommandBuilder.pipeline bang cmds = some (Except.ok p.2)) := by
  constructor
  · exact pipeline_of_wrap bang cmds
  · intro hb hlen
    subst hb
    obtain ⟨p, rfl⟩ : ∃ p, cmds = [p] := by
      cases cmds with
      | nil => exact absurd rfl h
      | cons p t =>
        cases t with
        | nil => exact ⟨p, rfl⟩
        | cons q r => exact absurd (by simp) hlen
    obtain ⟨tr, c⟩ := p
    exact ⟨(tr, c), rfl, pipeline_singleton tr c⟩

/-- Witness for C2: instantiates `pipeline_collapse_spec` at a concrete
non-negated single-stage pipeline and checks the collapse. -/
theorem pipeline_collapse_spec_witness :
    CommandBuilder.pipeline false [([], sampleCmd)] =
      some (Except.ok sampleCmd) := by
  obtain ⟨p, hp, he⟩ :=
    (pipeline_collapse_spec false [([], sampleCmd)] (by simp)).2 rfl (by simp)
  have hp' : (([] : List Newline), sampleCmd) = p := by simpa using hp
  rw [← hp'] at he
  exact he

/-- C3: `complete_command` wraps the command in `Job` exactly when the
separator is `Amp`, passes it through unchanged for `Semi`, `Other` and any
`Newline` value, and ignores both trivia arguments. -/
theorem complete_command_spec (pre : List Newline) (cmd : Command)
    (sep : SeparatorKind) (post : List Newline) :
    CommandBuilder.complete_command pre cmd sep post =
      Except.ok (match sep with
        | SeparatorKind.Amp => Command.Job cmd
        | _ => cmd) := by
  cases sep <;> rfl

/-- C4: `and_or` builds `And first second` for kind `And` and
`Or first second` for kind `Or`, preserving operand identity and order and
ignoring the trivia. -/
theorem and_or_spec (a : Command) (post : List Newline) (b : Command) :
    CommandBuilder.and_or a AndOrKind.And post b =
      Except.ok (Command.And a b) ∧
    CommandBuilder.and_or a AndOrKind.Or post b =
      Except.ok (Command.Or a b) :=
  ⟨rfl, rfl⟩

/-- C5: `simple_command` always succeeds with a `Simple` node whose fields are
exactly the inputs; in particular with an absent command name and a non-empty
assignment list it succeeds with `cmd = none`. -/
theorem simple_command_spec :
    (∀ (env_vars : List (String × Option Word)) (cmd : Option Word)
       (args : List Word) (redirects : List Redirect),
       CommandBuilder.simple_command env_vars cmd args redirects =
         Except.ok (Command.Simple ⟨cmd, env_vars, args, redirects⟩)) ∧
    (∀ (v : String × Option Word) (vs : List (String × Option Word))
       (args : List Word) (redirects : List Redirect),
       CommandBuilder.simple_command (v :: vs) none args redirects =
         Except.ok (Command.Simple ⟨none, v :: vs, args, redirects⟩)) := by
  constructor <;> intros <;> rfl

/-- C6: each compound-command production emits a `Compound` node wrapping
exactly the corresponding `CompoundCommand` variant built from the supplied
child sequences in order, paired with exactly the supplied redirect list;
`case_command` drops the per-branch trivia and keeps only the
(pattern list, body) pairs. -/
theorem compound_builders_spec :
    (∀ (cmds : List Command) (redirects : List Redirect),
       CommandBuilder.brace_group cmds redirects =
         Except.ok (Command.Compound (CompoundCommand.Brace cmds) redirects)) ∧
    (∀ (cmds : List Command) (redirects : List Redirect),
       CommandBuilder.subshell cmds redirects =
         Except.ok (Command.Compound (CompoundCommand.Subshell cmds) redirects)) ∧
    (∀ (guard body : List Command) (redirects : List Redirect),
       CommandBuilder.loop_command LoopKind.While guard body redirects =
         Except.ok (Command.Compound (CompoundCommand.While guard body) redirects)) ∧
    (∀ (guard body : List Command) (redirects : List Redirect),
       CommandBuilder.loop_command LoopKind.Until guard body redirects =
         Except.ok (Command.Compound (CompoundCommand.Until guard body) redirects)) ∧
    (∀ (branches : List (List Command × List Command))
       (else_part : Option (List Command)) (redirects : List Redirect),
       CommandBuilder.if_command branches else_part redirects =
         Except.ok (Command.Compound
           (CompoundCommand.If branches else_part) redirects)) ∧
    (∀ (var : String) (pv : List Newline) (in_words : Option (List Word))
       (pw : Option (List Newline)) (body : List Command)
       (redirects : List Redirect),
       CommandBuilder.for_command var pv in_words pw body redirects =
         Except.ok (Command.Compound
           (CompoundCommand.For var in_words body) redirects)) ∧
    (∀ (word : Word) (pw : List Newline)
       (branches : List ((List Newline × List Word × List Newline) × List Command))
       (pb : List Newline) (redirects : List Redirect),
       CommandBuilder.case_command word pw branches pb redirects =
         Except.ok (Command.Compound
           (CompoundCommand.Case word (branches.map (fun br => (br.1.2.1, br.2))))
           redirects)) := by
  repeat' apply And.intro
  all_goals intros
  all_goals rfl

/-- C8: `for_command` maps an absent word list to a `For` node with an absent
word-list field and a present word list to a `For` node with that same present
list; an absent list and an empty present list give distinguishable results. -/
theorem for_command_in_words_spec :
    (∀ (var : String) (pv : List Newline) (pw : Option (List Newline))
       (body : List Command) (redirects : List Redirect),
       CommandBuilder.for_command var pv none pw body redirects =
         Except.ok (Command.Compound (CompoundCommand.For var none body) redirects)) ∧
    (∀ (var : String) (pv : List Newline) (ws : List Word)
       (pw : Option (List Newline)) (body : List Command)
       (redirects : List Redirect),
       CommandBuilder.for_command var pv (some ws) pw body redirects =
         Except.ok (Command.Compound
           (CompoundCommand.For var (some ws) body) redirects)) ∧
    (∀ (var : String) (pv pv' : List Newline) (pw pw' : Option (List Newline))
       (body : List Command) (redirects : List Redirect),
       CommandBuilder.for_command var pv none pw body redirects ≠
         CommandBuilder.for_command var pv' (some []) pw' body redirects) := by
  refine ⟨fun _ _ _ _ _ => rfl, fun _ _ _ _ _ _ => rfl, ?_⟩
  intro var pv pv' pw pw' body redirects h
  simp [CommandBuilder.for_command] at h

/-- Witness for C8: instantiates `for_command_in_words_spec` at concrete
inputs, checking that an absent and an empty-present word list give different
nodes. -/
theorem for_command_in_words_spec_witness :
    CommandBuilder.for_command "x" [] none none [] [] ≠
      CommandBuilder.for_command "x" [] (some []) none [] [] :=
  for_command_in_words_spec.2.2 "x" [] [] none none [] []

/-- C9: the blanket `impl<T: CommandBuilder> Builder for T` adapter forwards
every `Builder` method to the homonymous `CommandBuilder` method of any
implementation, producing exactly the same state and result on every input. -/
theorem builder_adapter_forwards (σ E : Type) (cb : CommandBuilderT σ E) :
    (∀ s pre cmd sep post,
       (toBuilder cb).complete_command s pre cmd sep post =
         cb.complete_command s pre cmd sep post) ∧
    (∀ s a kind post b,
       (toBuilder cb).and_or s a kind post b = cb.and_or s a kind post b) ∧
    (∀ s bang cmds,
       (toBuilder cb).pipeline s bang cmds = cb.pipeline s bang cmds) ∧
    (∀ s env_vars cmd args redirects,
       (toBuilder cb).simple_command s env_vars cmd args redirects =
         cb.simple_command s env_vars cmd args redirects) ∧
    (∀ s cmds redirects,
       (toBuilder cb).brace_group s cmds redirects =
         cb.brace_group s cmds redirects) ∧
    (∀ s cmds redirects,
       (toBuilder cb).subshell s cmds redirects = cb.subshell s cmds redirects) ∧
    (∀ s kind guard body redirects,
       (toBuilder cb).loop_command s kind guard body redirects =
         cb.loop_command s kind guard body redirects) ∧
    (∀ s branches else_part redirects,
       (toBuilder cb).if_command s branches else_part redirects =
         cb.if_command s branches else_part redirects) ∧
    (∀ s var pv in_words pw body redirects,
       (toBuilder cb).for_command s var pv in_words pw body redirects =
         cb.for_command s var pv in_words pw body redirects) ∧
    (∀ s word pw branches pb redirects,
       (toBuilder cb).case_command s word pw branches pb redirects =
         cb.case_command s word pw branches pb redirects) ∧
    (∀ s names body,
       (toBuilder cb).function_declaration s names body =
         cb.function_declaration s names body) ∧
    (∀ s cs, (toBuilder cb).comments s cs = cb.comments s cs) := by
  repeat' apply And.intro
  all_goals intros
  all_goals rfl

/-- C10: `pipeline` is total exactly on non-empty stage lists: on the empty
list with `bang = false` the collapsing branch unwraps a pop from an empty
vector and has no defined result (modelled as `none`), on the empty list with
`bang = true` it returns `Pipe(true, [])` with zero stages, and on every
non-empty list it returns a value. -/
theorem pipeline_totality :
    CommandBuilder.pipeline false [] = none ∧
    CommandBuilder.pipeline true [] =
      some (Except.ok (Command.Pipe true [])) ∧
    (∀ (bang : Bool) (cmds : List (List Newline × Command)), cmds ≠ [] →
      ∃ r, CommandBuilder.pipeline bang cmds = some (Except.ok r)) :=
  ⟨rfl, rfl, fun bang cmds h => pipeline_ok_of bang cmds (Or.inr h)⟩

/-- Witness for C10: instantiates `pipeline_totality` at a concrete non-empty
stage list. -/
theorem pipeline_totality_witness :
    ∃ r, CommandBuilder.pipeline false [([], sampleCmd)] =
      some (Except.ok r) :=
  pipeline_totality.2.2 false [([], sampleCmd)] (by simp)

/-- Counterexample to C1 as stated: `pipeline` applied to the empty stage list
with `bang = false` does not return `Ok` for this input — the source unwraps a
pop from an empty vector, which panics (modelled as `none`). -/
theorem builders_total_counterexample :
    CommandBuilder.pipeline false [] = none ∧
    ¬ ∃ r, CommandBuilder.pipeline false [] = some (Except.ok r) := by
  refine ⟨rfl, ?_⟩
  rintro ⟨r, hr⟩
  have h0 : CommandBuilder.pipeline false [] = none := rfl
  rw [h0] at hr
  exact Option.noConfusion hr

/-- C1 (amended): every production method of the reference builder returns
`Ok` for every input — except that `pipeline` is only defined when the stage
list is non-empty or `bang` is set, and returns `Ok` on all such inputs; no
method ever returns an error. -/
theorem builders_never_err :
    (∀ (pre : List Newline) (cmd : Command) (sep : SeparatorKind)
       (post : List Newline),
       ∃ r, CommandBuilder.complete_command pre cmd sep post = Except.ok r) ∧
    (∀ (a : Command) (kind : AndOrKind) (post : List Newline) (b : Command),
       ∃ r, CommandBuilder.and_or a kind post b = Except.ok r) ∧
    (∀ (bang : Bool) (cmds : List (List Newline × Command)),
       bang = true ∨ cmds ≠ [] →
       ∃ r, CommandBuilder.pipeline bang cmds = some (Except.ok r)) ∧
    (∀ (env_vars : List (String × Option Word)) (cmd : Option Word)
       (args : List Word) (redirects : List Redirect),
       ∃ r, CommandBuilder.simple_command env_vars cmd args redirects =
         Except.ok r) ∧
    (∀ (cmds : List Command) (redirects : List Redirect),
       ∃ r, CommandBuilder.brace_group cmds redirects = Except.ok r) ∧
    (∀ (cmds : List Command) (redirects : List Redirect),
       ∃ r, CommandBuilder.subshell cmds redirects = Except.ok r) ∧
    (∀ (kind : LoopKind) (guard body : List Command) (redirects : List Redirect),
       ∃ r, CommandBuilder.loop_command kind guard body redirects = Except.ok r) ∧
    (∀ (branches : List (List Command × List Command))
       (else_part : Option (List Command)) (redirects : List Redirect),
       ∃ r, CommandBuilder.if_command branches else_part redirects = Except.ok r) ∧
    (∀ (var : String) (pv : List Newline) (in_words : Option (List Word))
       (pw : Option (List Newline)) (body : List Command)
       (redirects : List Redirect),
       ∃ r, CommandBuilder.for_command var pv in_words pw body redirects =
         Except.ok r) ∧
    (∀ (word : Word) (pw : List Newline)
       (branches : List ((List Newline × List Word × List Newline) × List Command))
       (pb : List Newline) (redirects : List Redirect),
       ∃ r, CommandBuilder.case_command word pw branches pb redirects =
         Except.ok r) ∧
    (∀ (names : String) (body : Command),
       ∃ r, CommandBuilder.function_declaration names body = Except.ok r) ∧
    (∀ (cs : List Newline), CommandBuilder.comments cs = Except.ok ()) := by
  repeat' apply And.intro
  · intro pre cmd sep post
    cases sep <;> exact ⟨_, rfl⟩
  · intro a kind post b
    cases kind <;> exact ⟨_, rfl⟩
  · exact pipeline_ok_of
  · intros; exact ⟨_, rfl⟩
  · intros; exact ⟨_, rfl⟩
  · intros; exact ⟨_, rfl⟩
  · intro kind guard body redirects
    cases kind <;> exact ⟨_, rfl⟩
  · intros; exact ⟨_, rfl⟩
  · intros; exact ⟨_, rfl⟩
  · intros; exact ⟨_, rfl⟩
  · intros; exact ⟨_, rfl⟩
  · intros; rfl

/-- Witness for C1 (amended): instantiates `builders_never_err` for `pipeline`
at a concrete non-empty stage list. -/
theorem builders_never_err_witness :
    ∃ r, CommandBuilder.pipeline true [([], sampleCmd)] =
      some (Except.ok r) :=
  builders_never_err.2.2.1 true [([], sampleCmd)] (Or.inl rfl)

lemma mem_of_getLast?_eq_some {α : Type} {l : List α} {a : α}
    (h : l.getLast? = some a) : a ∈ l := by
  obtain ⟨hne, rfl⟩ := List.mem_getLast?_eq_getLast h
  exact List.getLast_mem hne

lemma not_bad_of_pipe (bang : Bool) (cs : List Command)
    (hcond : bang = true ∨ 1 < cs.length)
    (hstages : ∀ x, x ∈ cs → ¬ HasBadPipe x) :
    ¬ HasBadPipe (Command.Pipe bang cs) := by
  intro hb
  cases hb with
  | here c =>
    rcases hcond with h | h
    · cases h
    · simp at h
  | pipe_stage _ _ h1 h2 => exact hstages _ h1 h2

/-- C7: no command tree reachable by composing reference-builder calls
contains a `Pipe` node with `bang = false` and exactly one stage. -/
theorem reachable_no_trivial_pipe (c : Command) (h : Reachable c) :
    ¬ HasBadPipe c := by
  induction h with
  | complete_command pre cmd sep post c hr heq ih =>
    cases sep with
    | Semi =>
      simp only [CommandBuilder.complete_command, Except.ok.injEq] at heq
      subst heq; exact ih
    | Other =>
      simp only [CommandBuilder.complete_command, Except.ok.injEq] at heq
      subst heq; exact ih
    | Newline n =>
      simp only [CommandBuilder.complete_command, Except.ok.injEq] at heq
      subst heq; exact ih
    | Amp =>
      simp only [CommandBuilder.complete_command, Except.ok.injEq] at heq
      subst heq
      intro hbad
      cases hbad with
      | job hx => exact ih hx
  | and_or a kind post b c hra hrb heq iha ihb =>
    cases kind with
    | And =>
      simp only [CommandBuilder.and_or, Except.ok.injEq] at heq
      subst heq
      intro hbad
      cases hbad with
      | and_left _ hx => exact iha hx
      | and_right _ hx => exact ihb hx
    | Or =>
      simp only [CommandBuilder.and_or, Except.ok.injEq] at heq
      subst heq
      intro hbad
      cases hbad with
      | or_left _ hx => exact iha hx
      | or_right _ hx => exact ihb hx
  | pipeline bang cmds c hall heq ih =>
    unfold CommandBuilder.pipeline at heq
    by_cases hc : bang = true ∨ 1 < (cmds.map Prod.snd).length
    · rw [if_pos hc] at heq
      simp only [Option.some.injEq, Except.ok.injEq] at heq
      subst heq
      refine not_bad_of_pipe bang (cmds.map Prod.snd) hc ?_
      intro x hx
      obtain ⟨p, hp, rfl⟩ := List.mem_map.mp hx
      exact ih p hp
    · rw [if_neg hc] at heq
      cases hl : (cmds.map Prod.snd).getLast? with
      | none => rw [hl] at heq; exact Option.noConfusion heq
      | some d =>
        rw [hl] at heq
        simp only [Option.map_some', Option.some.injEq, Except.ok.injEq] at heq
        subst heq
        obtain ⟨p, hp, rfl⟩ := List.mem_map.mp (mem_of_getLast?_eq_some hl)
        exact ih p hp
  | simple_command env_vars cmd args redirects c heq =>
    simp only [CommandBuilder.simple_command, Except.ok.injEq] at heq
    subst heq
    intro hbad
    cases hbad
  | brace_group cmds redirects c hall heq ih =>
    simp only [CommandBuilder.brace_group, Except.ok.injEq] at heq
    subst heq
    intro hbad
    cases hbad with
    | brace _ _ hmem hx => exact ih _ hmem hx
  | subshell cmds redirects c hall heq ih =>
    simp only [CommandBuilder.subshell, Except.ok.injEq] at heq
    subst heq
    intro hbad
    cases hbad with
    | subshell _ _ hmem hx => exact ih _ hmem hx
  | loop_command kind guard body redirects c hrg hrb heq ihg ihb =>
    cases kind with
    | While =>
      simp only [CommandBuilder.loop_command, Except.ok.injEq] at heq
      subst heq
      intro hbad
      cases hbad with
      | while_guard _ _ _ hmem hx => exact ihg _ hmem hx
      | while_body _ _ _ hmem hx => exact ihb _ hmem hx
    | Until =>
      simp only [CommandBuilder.loop_command, Except.ok.injEq] at heq
      subst heq
      intro hbad
      cases hbad with
      | until_guard _ _ _ hmem hx => exact ihg _ hmem hx
      | until_body _ _ _ hmem hx => exact ihb _ hmem hx
  | if_command branches else_part redirects c hrg hrb hre heq ihg ihb ihe =>
    simp only [CommandBuilder.if_command, Except.ok.injEq] at heq
    subst heq
    intro hbad
    cases hbad with
    | if_guard _ _ _ br hbr hmem hx => exact ihg br hbr _ hmem hx
    | if_body _ _ _ br hbr hmem hx => exact ihb br hbr _ hmem hx
    | if_else _ l _ hmem hx => exact ihe l rfl _ hmem hx
  | for_command var pv in_words pw body redirects c hr heq ih =>
    simp only [CommandBuilder.for_command, Except.ok.injEq] at heq
    subst heq
    intro hbad
    cases hbad with
    | for_body _ _ _ _ hmem hx => exact ih _ hmem hx
  | case_command word pw branches pb redirects c hr heq ih =>
    simp only [CommandBuilder.case_command, Except.ok.injEq] at heq
    subst heq
    intro hbad
    cases hbad with
    | case_body _ _ _ br hbrmem hxmem hx =>
      obtain ⟨br0, hbr0, rfl⟩ := List.mem_map.mp hbrmem
      exact ih br0 hbr0 _ hxmem hx
  | function_declaration names body c hr heq ih =>
    simp only [CommandBuilder.function_declaration, Except.ok.injEq] at heq
    subst heq
    intro hbad
    cases hbad with
    | func _ hx => exact ih hx

/-- Witness for C7: instantiates `reachable_no_trivial_pipe` at a concrete
reachable command (the output of `simple_command` on empty inputs). -/
theorem reachable_no_trivial_pipe_witness :
    Reachable sampleCmd ∧ ¬ HasBadPipe sampleCmd :=
  ⟨Reachable.simple_command [] none [] [] sampleCmd rfl,
   reachable_no_trivial_pipe sampleCmd
     (Reachable.simple_command [] none [] [] sampleCmd rfl)⟩

end Conch
